import Mathlib

/-!
Shallow embedding of the per-app log-storage shard (`AppLogsDO` in
`src/durable-objects/app-logs-do.ts`) together with the `Result` utilities
(`src/result.ts`) and the type definitions (`src/types.ts`) of the
worker-logs repository, and proofs of the frozen claims about it.

Modelling conventions:
* The SQLite tables of one Durable Object are a `Store` record of row lists;
  list order is row (insertion) order.
* `sql.exec` failures (the CHECK constraint on `logs.level`, a missing
  column in an interpolated UPDATE) are `Except.error` values; a TypeScript
  `try`/`catch` around them is a `match` converting the error to an `Err`
  result, exactly where the source has one.  Each successful `exec` commits
  on its own (no enclosing transaction in the source), so a caught error
  leaves earlier writes of the same call in place.
* Serialized JSON columns (`logs.context`, the `health_urls` config value)
  are modelled by the structured values they encode, since the source
  round-trips them through `JSON.stringify`/`JSON.parse` unchanged.
* Environment-produced values (`crypto.randomUUID()`, `new Date()`, probe
  outcomes) are explicit parameters.
* SQLite semantics used: `LIKE` is case-insensitive for ASCII letters with
  `%`/`_` wildcards; a `LIMIT`/`OFFSET` binding that is `NULL` or a `NaN`
  double raises a `datatype mismatch` error, while a negative integer
  `LIMIT` imposes no bound and a negative integer `OFFSET` skips nothing;
  string comparison is lexicographic byte order.
-/

/-- ASCII lower-casing, as applied by SQLite `LIKE` and by the source's
`level.toLowerCase()` on the all-ASCII level names. -/
def asciiLower (c : Char) : Char :=
  if 'A' ≤ c ∧ c ≤ 'Z' then Char.ofNat (c.toNat + 32) else c

/-- String version of `asciiLower`. -/
def asciiLowerStr (s : String) : String :=
  ⟨s.data.map asciiLower⟩

/-- SQLite `LIKE` pattern matching (default collation: ASCII
case-insensitive; `%` matches any sequence, `_` any single character). -/
def likeMatch : List Char → List Char → Bool
  | [], s => s.isEmpty
  | '%' :: ps, s => (List.tails s).any (fun t => likeMatch ps t)
  | '_' :: _, [] => false
  | '_' :: ps, _ :: s => likeMatch ps s
  | _ :: _, [] => false
  | c :: ps, d :: s => (asciiLower c = asciiLower d) && likeMatch ps s

/-- The `charsLead n h` holds when `n` is an initial segment of `h`
(case-sensitive). -/
def charsLead : List Char → List Char → Bool
  | [], _ => true
  | _ :: _, [] => false
  | a :: as, b :: bs => (a = b) && charsLead as bs

/-- Case-sensitive contiguous containment of character lists. -/
def charsSub (n : List Char) : List Char → Bool
  | [] => charsLead n []
  | h :: hs => charsLead n (h :: hs) || charsSub n hs

/-- The spec's reading of the `search` filter: case-sensitive substring
match on the message.  Used only to compare the spec's words with the
source's `LIKE`-based behaviour. -/
def specCaseSensitiveSubstring (needle hay : String) : Bool :=
  charsSub needle.data hay.data

/-- A JavaScript number that is either an integer or `NaN`, the two shapes
`parseInt` can produce on a query parameter. -/
inductive JsNum where
  | nan : JsNum
  | int : Int → JsNum
deriving DecidableEq

/-- Value of a digit run. -/
def digitsVal : List Char → Nat → Nat
  | [], acc => acc
  | c :: cs, acc => digitsVal cs (acc * 10 + (c.toNat - '0'.toNat))

/-- JavaScript `parseInt(s)` restricted to radix-10 query-parameter
strings: an optional sign followed by a maximal digit run; `NaN` when no
leading digit exists. -/
def parseIntJS (s : String) : JsNum :=
  let go : List Char → JsNum := fun cs =>
    let ds := cs.takeWhile Char.isDigit
    if ds.isEmpty then JsNum.nan else JsNum.int (digitsVal ds 0)
  match s.data with
  | '-' :: rest =>
      (match go rest with
       | JsNum.nan => JsNum.nan
       | JsNum.int n => JsNum.int (-n))
  | '+' :: rest => go rest
  | cs => go cs

/-- Lexicographic strict comparison of character lists: SQLite's BINARY
collation on the stored text (UTF-8 byte order and code-point order
agree). -/
def chLt : List Char → List Char → Bool
  | [], [] => false
  | [], _ :: _ => true
  | _ :: _, [] => false
  | a :: as, b :: bs => (a < b) || ((a = b) && chLt as bs)

/-- SQLite `<` on text values. -/
def strLtB (a b : String) : Bool := chLt a.data b.data

/-- SQLite `<=` on text values (total order: `a <= b` iff not `b < a`). -/
def strLeB (a b : String) : Bool := ! strLtB b a

/-- Insert `x` into a list sorted descending by `key`, before any element
with an equal key (stable insertion). -/
def insertDescBy {α : Type} (key : α → String) (x : α) : List α → List α
  | [] => [x]
  | y :: ys =>
      if strLeB (key y) (key x) then x :: y :: ys
      else y :: insertDescBy key x ys

/-- Stable sort, descending by `key` (the `ORDER BY _ DESC` of the
source's queries). -/
def sortDescBy {α : Type} (key : α → String) : List α → List α
  | [] => []
  | x :: xs => insertDescBy key x (sortDescBy key xs)

/-- The `LIMIT ? OFFSET ?` clause with JavaScript-number bindings.  A
`NaN`/`NULL` binding for either expression makes SQLite raise a
`datatype mismatch` error; a negative integer `LIMIT` imposes no bound and
a negative integer `OFFSET` skips nothing. -/
def sqlLimitOffset {α : Type} (rows : List α) (lim off : JsNum) :
    Except String (List α) :=
  match off with
  | JsNum.nan => Except.error "datatype mismatch"
  | JsNum.int noff =>
      match lim with
      | JsNum.nan => Except.error "datatype mismatch"
      | JsNum.int n =>
          if n < 0 then Except.ok (rows.drop noff.toNat)
          else Except.ok ((rows.drop noff.toNat).take n.toNat)

/-! ## Data model (src/types.ts, src/result.ts) -/

/-- The `ApiError` from src/result.ts (the optional `details` record is never
set by the shard and is omitted). -/
structure ApiError where
  code : String
  message : String
deriving DecidableEq

/-- The `Result<T>` from src/result.ts: a tagged `Ok`/`Err` union. -/
inductive Result (α : Type) where
  | ok : α → Result α
  | err : ApiError → Result α
deriving DecidableEq

/-- The `ErrorCode.INTERNAL_ERROR`. -/
def ErrorCode.INTERNAL_ERROR : String := "INTERNAL_ERROR"

/-- The `ErrorCode.VALIDATION_ERROR`. -/
def ErrorCode.VALIDATION_ERROR : String := "VALIDATION_ERROR"

/-- The `LogEntry` from src/types.ts; `context` holds the structured
key-to-scalar mapping whose JSON serialization the `logs.context` column
stores. -/
structure LogEntry where
  id : String
  timestamp : String
  level : String
  message : String
  context : Option (List (String × String))
  request_id : Option String
deriving DecidableEq

/-- The `LogInput` from src/types.ts. -/
structure LogInput where
  level : String
  message : String
  context : Option (List (String × String)) := none
  request_id : Option String := none
deriving DecidableEq

/-- The `HealthCheck` from src/types.ts. -/
structure HealthCheck where
  id : String
  url : String
  status : Int
  latency_ms : Int
  checked_at : String
deriving DecidableEq

/-- The `DailyStats` from src/types.ts. -/
structure DailyStats where
  date : String
  debug : Int
  info : Int
  warn : Int
  error : Int
deriving DecidableEq

/-- The `PruneResult` from src/types.ts. -/
structure PruneResult where
  deleted : Int
deriving DecidableEq

/-- The `QueryFilters` from src/types.ts.  `limit`/`offset` are JavaScript
numbers (possibly `NaN` when produced by `parseInt` on a non-numeric
query parameter). -/
structure QueryFilters where
  level : Option String := none
  since : Option String := none
  -- the source's `until` field; `until` is a Lean keyword
  untilTs : Option String := none
  request_id : Option String := none
  search : Option String := none
  context : Option (List (String × String)) := none
  limit : Option JsNum := none
  offset : Option JsNum := none

/-- The SQLite tables created by `initSchema`, per Durable Object: `logs`,
`health_checks`, `daily_stats`, and the `config` table (which only ever
holds the `health_urls` key, modelled by the parsed URL list it stores). -/
structure Store where
  logs : List LogEntry
  health_checks : List HealthCheck
  daily_stats : List DailyStats
  configHealthUrls : Option (List String)
deriving DecidableEq

/-- The empty store produced by `initSchema` on a fresh object. -/
def Store.empty : Store :=
  { logs := [], health_checks := [], daily_stats := [], configHealthUrls := none }

/-! ## Operations of `AppLogsDO` (src/durable-objects/app-logs-do.ts) -/

/-- The four allowed levels, as in the `CHECK (level IN (...))` constraint
of the `logs` table. -/
def validLevel (l : String) : Bool :=
  l = "DEBUG" || l = "INFO" || l = "WARN" || l = "ERROR"

/-- SQLite's diagnostic for a violated level CHECK constraint. -/
def levelCheckMsg : String := "CHECK constraint failed: level"

/-- The `INSERT INTO logs ...` statement: rejected by the CHECK constraint
when the level is not one of the four allowed values, otherwise appends the
row.  (The `id` primary key is a server-generated UUID; a collision is not
modelled.)  The returned error message is SQLite's constraint diagnostic. -/
def insertLog (st : Store) (e : LogEntry) : Except String Store :=
  if validLevel e.level then
    Except.ok { st with logs := st.logs ++ [e] }
  else
    Except.error levelCheckMsg

/-- The entry built by `log`/`logBatch` before inserting: server-generated
id and timestamp, caller-supplied level, message, context, request_id. -/
def mkEntry (id ts : String) (input : LogInput) : LogEntry :=
  { id := id, timestamp := ts, level := input.level, message := input.message,
    context := input.context, request_id := input.request_id }

/-- The `AppLogsDO.log`: build the entry with a fresh id and the current
timestamp (both explicit parameters here), insert one row, return the
entry; a store exception is caught and converted to an
`INTERNAL_ERROR` result, leaving the store as it was. -/
def AppLogsDO.log (st : Store) (freshId ts : String) (input : LogInput) :
    Result LogEntry × Store :=
  let entry := mkEntry freshId ts input
  match insertLog st entry with
  | Except.ok st' => (Result.ok entry, st')
  | Except.error msg => (Result.err ⟨ErrorCode.INTERNAL_ERROR, msg⟩, st)

/-- The loop body of `AppLogsDO.logBatch`: one shared timestamp, a fresh id
per input (from `idGen`), one `INSERT` per input.  Each successful insert
commits on its own; when an insert throws, the `catch` converts it to an
`INTERNAL_ERROR` result but the rows already inserted in this call stay. -/
def logBatchGo (idGen : Nat → String) (ts : String) :
    Store → Nat → List LogInput → Result (List LogEntry) × Store
  | st, _, [] => (Result.ok [], st)
  | st, i, input :: rest =>
      let entry := mkEntry (idGen i) ts input
      match insertLog st entry with
      | Except.error msg => (Result.err ⟨ErrorCode.INTERNAL_ERROR, msg⟩, st)
      | Except.ok st' =>
          match logBatchGo idGen ts st' (i + 1) rest with
          | (Result.ok es, st'') => (Result.ok (entry :: es), st'')
          | (Result.err e, st'') => (Result.err e, st'')

/-- The `AppLogsDO.logBatch`. -/
def AppLogsDO.logBatch (st : Store) (idGen : Nat → String) (ts : String)
    (inputs : List LogInput) : Result (List LogEntry) × Store :=
  logBatchGo idGen ts st 0 inputs

/-- The `WHERE` clause built by `AppLogsDO.query`: optional filters,
AND-combined.  `search` becomes `message LIKE '%' || s || '%'`; a context
filter compares `json_extract(context, '$.key')` with the given value
(`NULL = ?` is false, so rows with no context never match). -/
def matchesFilters (f : QueryFilters) (r : LogEntry) : Bool :=
  (match f.level with | none => true | some l => r.level = l) &&
  (match f.since with | none => true | some s => strLeB s r.timestamp) &&
  (match f.untilTs with | none => true | some u => strLeB r.timestamp u) &&
  (match f.request_id with | none => true | some q => r.request_id = some q) &&
  (match f.search with
   | none => true
   | some s => likeMatch ('%' :: s.data ++ ['%']) r.message.data) &&
  (match f.context with
   | none => true
   | some kvs => kvs.all (fun kv => (r.context.getD []).lookup kv.1 = some kv.2))

/-- The `AppLogsDO.query`: filter, order newest-first by timestamp, then
`LIMIT ? OFFSET ?` with defaults 100 and 0 applied by `??` (which passes
`NaN` through, making the binding raise); the surrounding catch converts a
store exception to an `INTERNAL_ERROR` result. -/
def AppLogsDO.query (st : Store) (f : QueryFilters) :
    Result (List LogEntry) × Store :=
  let rows := st.logs.filter (matchesFilters f)
  let sorted := sortDescBy (fun r => r.timestamp) rows
  let lim := f.limit.getD (JsNum.int 100)
  let off := f.offset.getD (JsNum.int 0)
  match sqlLimitOffset sorted lim off with
  | Except.ok page => (Result.ok page, st)
  | Except.error msg => (Result.err ⟨ErrorCode.INTERNAL_ERROR, msg⟩, st)

/-- The `AppLogsDO.pruneLogs`: `DELETE FROM logs WHERE timestamp < ?
RETURNING id`; the returned count is the number of deleted rows. -/
def AppLogsDO.pruneLogs (st : Store) (before : String) :
    Result PruneResult × Store :=
  let deleted := st.logs.filter (fun r => strLtB r.timestamp before)
  let kept := st.logs.filter (fun r => ! strLtB r.timestamp before)
  (Result.ok ⟨(deleted.length : Int)⟩, { st with logs := kept })

/-- The `AppLogsDO.recordHealthCheck`: insert the new check, then delete every
check of that URL whose id is not among the 1000 most recent ids by
`checked_at DESC`. -/
def AppLogsDO.recordHealthCheck (st : Store) (id url : String)
    (status latencyMs : Int) (checkedAt : String) : Store :=
  let row : HealthCheck :=
    { id := id, url := url, status := status, latency_ms := latencyMs,
      checked_at := checkedAt }
  let st1 := { st with health_checks := st.health_checks ++ [row] }
  let keepIds :=
    ((sortDescBy (fun r => r.checked_at)
        (st1.health_checks.filter (fun r => r.url = url))).take 1000).map
      (fun r => r.id)
  { st1 with
    health_checks :=
      st1.health_checks.filter
        (fun r => if r.url = url then decide (r.id ∈ keepIds) else true) }

/-- A zero counters row for a date, as inserted by `INSERT OR IGNORE INTO
daily_stats (date, debug, info, warn, error) VALUES (?, 0, 0, 0, 0)`. -/
def zeroStats (dateKey : String) : DailyStats :=
  { date := dateKey, debug := 0, info := 0, warn := 0, error := 0 }

/-- The `INSERT OR IGNORE` of the zero row: appended only when no row for the
date exists. -/
def ensureStatsRow (st : Store) (dateKey : String) : Store :=
  if st.daily_stats.any (fun r => r.date = dateKey) then st
  else { st with daily_stats := st.daily_stats ++ [zeroStats dateKey] }

/-- Add `count` to the named counter column of a stats row.  Only the four
real column names have an effect; any other name corresponds to an invalid
interpolated UPDATE and never reaches this function. -/
def bumpColumn (col : String) (count : Int) (r : DailyStats) : DailyStats :=
  if col = "debug" then { r with debug := r.debug + count }
  else if col = "info" then { r with info := r.info + count }
  else if col = "warn" then { r with warn := r.warn + count }
  else if col = "error" then { r with error := r.error + count }
  else r

/-- The `AppLogsDO.recordStats` for a given date key (the source computes the
key from the current date).  The column name is interpolated from
`level.toLowerCase()` into the UPDATE text, so a level outside the four
valid ones yields a `no such column` store exception — and this method has
no `try`/`catch`, so the exception propagates to the caller.  On success
it returns the full day's counters as a plain `DailyStats`, not a tagged
result. -/
def AppLogsDO.recordStats (st : Store) (dateKey level : String)
    (count : Int) : Except String (DailyStats × Store) :=
  let col := asciiLowerStr level
  let st1 := ensureStatsRow st dateKey
  if col = "debug" || col = "info" || col = "warn" || col = "error" then
    let st2 :=
      { st1 with
        daily_stats :=
          st1.daily_stats.map
            (fun r => if r.date = dateKey then bumpColumn col count r else r) }
    match st2.daily_stats.find? (fun r => r.date = dateKey) with
    | some r => Except.ok (r, st2)
    | none => Except.error "Error: query returned no rows"
  else
    Except.error ("no such column: " ++ col)

/-- The per-level aggregation of `recordStatsBatch`: sum the counts whose
lower-cased level equals the column name.  (In the source an invalid level
writes `NaN` into a property the later UPDATE never reads, so such items
are silently dropped.) -/
def batchTotal (counts : List (String × Int)) (col : String) : Int :=
  (counts.filter (fun c => asciiLowerStr c.1 = col)).foldl
    (fun acc c => acc + c.2) 0

/-- The `AppLogsDO.recordStatsBatch` for a given date key: ensure the zero row,
aggregate the deltas, apply one UPDATE adding all four totals, return the
day's counters as a plain `DailyStats` (again no `try`/`catch`; the only
store failure, `cursor.one()` on a missing row, cannot occur after the
upsert). -/
def AppLogsDO.recordStatsBatch (st : Store) (dateKey : String)
    (counts : List (String × Int)) : Except String (DailyStats × Store) :=
  let st1 := ensureStatsRow st dateKey
  let st2 :=
    { st1 with
      daily_stats :=
        st1.daily_stats.map
          (fun r =>
            if r.date = dateKey then
              { r with
                debug := r.debug + batchTotal counts "debug",
                info := r.info + batchTotal counts "info",
                warn := r.warn + batchTotal counts "warn",
                error := r.error + batchTotal counts "error" }
            else r) }
  match st2.daily_stats.find? (fun r => r.date = dateKey) with
  | some r => Except.ok (r, st2)
  | none => Except.error "Error: query returned no rows"

/-- The `AppLogsDO.getStats` for a given date key: a SELECT only; a date with
no row yields the synthetic zero snapshot and the store is returned as it
was (no row is created). -/
def AppLogsDO.getStats (st : Store) (dateKey : String) : DailyStats × Store :=
  match st.daily_stats.find? (fun r => r.date = dateKey) with
  | some r => (r, st)
  | none => (zeroStats dateKey, st)

/-- The `AppLogsDO.getStatsRange`: one `getStats` per day for
[today, today-1, ..., today-(days-1)]; `dayKey i` is the date key `i` days
before today (the source computes it with `Date` arithmetic). -/
def AppLogsDO.getStatsRange (st : Store) (dayKey : Nat → String)
    (days : Nat) : List DailyStats × Store :=
  ((List.range days).map (fun i => (AppLogsDO.getStats st (dayKey i)).1), st)

/-! ## Health scheduler state machine -/

/-- The scheduler-relevant state of one Durable Object: its store, the
in-memory `healthUrls` cache field, and the number of armed platform
timers (`pending`; the platform's `getAlarm` returns a time exactly when
`pending ≠ 0`). -/
structure SchedState where
  store : Store
  healthUrls : List String
  pending : Nat
deriving DecidableEq

/-- The `AppLogsDO.setHealthUrls`: cache the list, persist it under the
`health_urls` config key, and arm a timer only when `getAlarm` reports
none armed and the list is non-empty. -/
def AppLogsDO.setHealthUrls (s : SchedState) (urls : List String) :
    Result (List String) × SchedState :=
  let s1 :=
    { s with
      healthUrls := urls,
      store := { s.store with configHealthUrls := some urls } }
  let s2 :=
    if s1.pending = 0 ∧ urls ≠ [] then { s1 with pending := s1.pending + 1 }
    else s1
  (Result.ok urls, s2)

/-- The `AppLogsDO.getHealthUrls`: the in-memory cache when non-empty,
otherwise the persisted config value (rehydrating the cache); an absent
config row makes `cursor.one()` throw, which the empty `catch` swallows,
leaving the empty list. -/
def getHealthUrlsOp (s : SchedState) : List String × SchedState :=
  if s.healthUrls ≠ [] then (s.healthUrls, s)
  else
    match s.store.configHealthUrls with
    | some v => (v, { s with healthUrls := v })
    | none => ([], s)

/-- The probe loop body of `alarm`: one recorded check per URL; `probe i`
is the outcome for the i-th URL (the real response status, or 0 for any
transport error or timeout — the `catch` inside the loop records failures
instead of raising), `idGen i`/`tGen i` the generated id and check time. -/
def recordAllChecks (probe : Nat → Int × Int) (idGen tGen : Nat → String) :
    Store → Nat → List String → Store
  | st, _, [] => st
  | st, i, url :: rest =>
      recordAllChecks probe idGen tGen
        (AppLogsDO.recordHealthCheck st (idGen i) url (probe i).1 (probe i).2
          (tGen i))
        (i + 1) rest

/-- The `AppLogsDO.alarm`: resolve the URL list, record one check per URL,
then re-arm a timer 5 minutes out exactly when the list is non-empty. -/
def AppLogsDO.alarm (s : SchedState) (probe : Nat → Int × Int)
    (idGen tGen : Nat → String) : SchedState :=
  let urls := (getHealthUrlsOp s).1
  let s1 := (getHealthUrlsOp s).2
  let s2 := { s1 with store := recordAllChecks probe idGen tGen s1.store 0 urls }
  if urls ≠ [] then { s2 with pending := s2.pending + 1 } else s2

/-- A platform timer firing: the armed timer is consumed, then the
`alarm` handler runs. -/
def fireAlarm (s : SchedState) (probe : Nat → Int × Int)
    (idGen tGen : Nat → String) : SchedState :=
  AppLogsDO.alarm { s with pending := s.pending - 1 } probe idGen tGen

/-- The state of a freshly constructed object: empty store, empty URL
cache, no timer armed. -/
def initSched : SchedState :=
  { store := Store.empty, healthUrls := [], pending := 0 }

/-- Reachable scheduler states: from a fresh object, via `setHealthUrls`
calls, timer firings (only possible while a timer is armed), and the other
entry points, which touch only the store (never the cache or the timer). -/
inductive Reach : SchedState → Prop
  | init : Reach initSched
  | set (s : SchedState) (urls : List String) : Reach s →
      Reach (AppLogsDO.setHealthUrls s urls).2
  | fire (s : SchedState) (probe : Nat → Int × Int) (idGen tGen : Nat → String) :
      Reach s → 1 ≤ s.pending → Reach (fireAlarm s probe idGen tGen)
  | storeOp (s : SchedState) (f : Store → Store) : Reach s →
      Reach { s with store := f s.store }

/-- The rows carried by a query result (`Err` carries none). -/
def resultRows {α : Type} : Result (List α) → List α
  | Result.ok es => es
  | Result.err _ => []

/-- The `fetch` handler's translation of the `limit`/`offset` query
parameter (src/durable-objects/app-logs-do.ts, GET /logs): absent parameter
becomes `undefined` (`none`), a present one goes through `parseInt`. -/
def numParamToFilter (p : Option String) : Option JsNum :=
  p.map parseIntJS

/-! ## Order lemmas for the SQLite text comparison -/

theorem chLt_irrefl (a : List Char) : chLt a a = false := by
  induction a with
  | nil => rfl
  | cons c cs ih => simp [chLt, ih]

theorem chLt_trans {a b c : List Char} (hab : chLt a b = true)
    (hbc : chLt b c = true) : chLt a c = true := by
  induction a generalizing b c with
  | nil =>
      cases b with
      | nil => simp [chLt] at hab
      | cons y ys =>
          cases c with
          | nil => simp [chLt] at hbc
          | cons z zs => simp [chLt]
  | cons x xs ih =>
      cases b with
      | nil => simp [chLt] at hab
      | cons y ys =>
          cases c with
          | nil => simp [chLt] at hbc
          | cons z zs =>
              simp only [chLt, Bool.or_eq_true, Bool.and_eq_true,
                decide_eq_true_eq] at hab hbc ⊢
              rcases hab with hxy | ⟨hxy, hxs⟩
              · rcases hbc with hyz | ⟨hyz, hys⟩
                · exact Or.inl (lt_trans hxy hyz)
                · exact Or.inl (hyz ▸ hxy)
              · rcases hbc with hyz | ⟨hyz, hys⟩
                · exact Or.inl (hxy ▸ hyz)
                · exact Or.inr ⟨hxy.trans hyz, ih hxs hys⟩

theorem chLt_connex {a b : List Char} (hab : chLt a b = false)
    (hba : chLt b a = false) : a = b := by
  induction a generalizing b with
  | nil =>
      cases b with
      | nil => rfl
      | cons y ys => simp [chLt] at hab
  | cons x xs ih =>
      cases b with
      | nil => simp [chLt] at hba
      | cons y ys =>
          simp only [chLt, Bool.or_eq_false_iff, Bool.and_eq_false_iff,
            decide_eq_false_iff_not] at hab hba
          obtain ⟨hxy, h1⟩ := hab
          obtain ⟨hyx, h2⟩ := hba
          have hxyeq : x = y := le_antisymm (le_of_not_lt hyx) (le_of_not_lt hxy)
          subst hxyeq
          have hxs : chLt xs ys = false := by
            rcases h1 with h1 | h1
            · exact absurd rfl h1
            · exact h1
          have hys : chLt ys xs = false := by
            rcases h2 with h2 | h2
            · exact absurd rfl h2
            · exact h2
          rw [ih hxs hys]

theorem chLt_asymm {a b : List Char} (h : chLt a b = true) :
    chLt b a = false := by
  cases hba : chLt b a with
  | false => rfl
  | true =>
      have := chLt_trans h hba
      rw [chLt_irrefl] at this
      exact absurd this (by simp)

theorem strLeB_refl (a : String) : strLeB a a = true := by
  simp [strLeB, strLtB, chLt_irrefl]

theorem strLeB_trans {a b c : String} (hab : strLeB a b = true)
    (hbc : strLeB b c = true) : strLeB a c = true := by
  simp only [strLeB, strLtB, Bool.not_eq_true'] at hab hbc ⊢
  cases hca : chLt c.data a.data with
  | false => rfl
  | true =>
      exfalso
      cases hbc' : chLt b.data c.data with
      | true =>
          have hba := chLt_trans hbc' hca
          rw [hab] at hba
          exact absurd hba (by simp)
      | false =>
          have heq : b.data = c.data := chLt_connex hbc' hbc
          rw [← heq, hab] at hca
          exact absurd hca (by simp)

theorem strLeB_total {a b : String} (h : ¬ strLeB a b = true) :
    strLeB b a = true := by
  simp only [strLeB, strLtB, Bool.not_eq_true', Bool.not_eq_false] at h
  simp only [strLeB, strLtB, Bool.not_eq_true']
  exact chLt_asymm h

theorem strLtB_trans_leB {a b c : String} (hab : strLtB a b = true)
    (hbc : strLeB b c = true) : strLtB a c = true := by
  simp only [strLeB, strLtB, Bool.not_eq_true'] at hab hbc ⊢
  cases hbc' : chLt b.data c.data with
  | false =>
      have heq : b.data = c.data := chLt_connex hbc' hbc
      rw [← heq]
      exact hab
  | true => exact chLt_trans hab hbc'

/-! ## Helper lemmas about the sorting and list utilities -/

theorem mem_insertDescBy {α : Type} (key : α → String) (x : α) (l : List α)
    (a : α) : a ∈ insertDescBy key x l ↔ a = x ∨ a ∈ l := by
  induction l with
  | nil => simp [insertDescBy]
  | cons y ys ih =>
      by_cases h : strLeB (key y) (key x) = true
      · simp [insertDescBy, h]
      · simp [insertDescBy, h, ih]
        tauto

theorem mem_sortDescBy {α : Type} (key : α → String) (l : List α) (a : α) :
    a ∈ sortDescBy key l ↔ a ∈ l := by
  induction l with
  | nil => simp [sortDescBy]
  | cons y ys ih => simp [sortDescBy, mem_insertDescBy, ih]

theorem length_insertDescBy {α : Type} (key : α → String) (x : α)
    (l : List α) : (insertDescBy key x l).length = l.length + 1 := by
  induction l with
  | nil => simp [insertDescBy]
  | cons y ys ih =>
      by_cases h : strLeB (key y) (key x) = true
      · simp [insertDescBy, h]
      · simp [insertDescBy, h, ih]

theorem length_sortDescBy {α : Type} (key : α → String) (l : List α) :
    (sortDescBy key l).length = l.length := by
  induction l with
  | nil => rfl
  | cons y ys ih => simp [sortDescBy, length_insertDescBy, ih]

theorem pairwise_insertDescBy {α : Type} (key : α → String) (x : α)
    (l : List α) (h : l.Pairwise (fun a b => strLeB (key b) (key a) = true)) :
    (insertDescBy key x l).Pairwise
      (fun a b => strLeB (key b) (key a) = true) := by
  induction l with
  | nil => simp [insertDescBy]
  | cons y ys ih =>
      rcases List.pairwise_cons.mp h with ⟨hy, hys⟩
      by_cases hle : strLeB (key y) (key x) = true
      · simp only [insertDescBy, if_pos hle]
        refine List.pairwise_cons.mpr ⟨?_, h⟩
        intro z hz
        rcases List.mem_cons.mp hz with rfl | hz
        · exact hle
        · exact strLeB_trans (hy z hz) hle
      · simp only [insertDescBy, if_neg hle]
        refine List.pairwise_cons.mpr ⟨?_, ih hys⟩
        intro z hz
        rcases (mem_insertDescBy key x ys z).mp hz with rfl | hz
        · exact strLeB_total (by simpa using hle)
        · exact hy z hz

theorem pairwise_sortDescBy {α : Type} (key : α → String) (l : List α) :
    (sortDescBy key l).Pairwise (fun a b => strLeB (key b) (key a) = true) := by
  induction l with
  | nil => simp [sortDescBy]
  | cons y ys ih => exact pairwise_insertDescBy key y _ ih

/-! ## Claim C1 -/

/-- C1 as written claims a `VALIDATION_ERROR`; the code has no level check
of its own — the store's CHECK constraint rejects the row and the `catch`
converts it to `INTERNAL_ERROR`.  Counterexample: a "TRACE" input fails
with code INTERNAL_ERROR, which is not VALIDATION_ERROR. -/
theorem C1_counterexample :
    (AppLogsDO.log Store.empty "id1" "2024-01-01T00:00:00.000Z"
        { level := "TRACE", message := "boot" }).1 =
      Result.err ⟨ErrorCode.INTERNAL_ERROR, levelCheckMsg⟩ ∧
    ErrorCode.INTERNAL_ERROR ≠ ErrorCode.VALIDATION_ERROR :=
  ⟨by decide, by decide⟩

/-- C1 (amended): an input whose level is not one of DEBUG, INFO, WARN,
ERROR makes `log` fail with an `INTERNAL_ERROR` result (the store's CHECK
constraint rejects the insert and the operation's catch converts it),
leaving the store unchanged; an input with a valid level yields the fully
populated entry built from the fresh id and current timestamp, inserts
exactly that one row, and a fresh id keeps the stored ids pairwise
distinct. -/
theorem C1_log_behavior (st : Store) (freshId ts : String) (input : LogInput) :
    (validLevel input.level = false →
      AppLogsDO.log st freshId ts input =
        (Result.err ⟨ErrorCode.INTERNAL_ERROR, levelCheckMsg⟩, st)) ∧
    (validLevel input.level = true →
      AppLogsDO.log st freshId ts input =
        (Result.ok (mkEntry freshId ts input),
         { st with logs := st.logs ++ [mkEntry freshId ts input] })) ∧
    (freshId ∉ st.logs.map (fun r => r.id) →
      (st.logs.map (fun r => r.id)).Nodup →
      ((st.logs ++ [mkEntry freshId ts input]).map (fun r => r.id)).Nodup) := by
  refine ⟨?_, ?_, ?_⟩
  · intro h
    simp [AppLogsDO.log, insertLog, mkEntry, h]
  · intro h
    simp [AppLogsDO.log, insertLog, mkEntry, h]
  · intro hfresh hnodup
    rw [List.map_append]
    refine List.Nodup.append hnodup (List.nodup_singleton _) ?_
    intro a ha hb
    simp only [List.map_cons, List.map_nil, List.mem_singleton] at hb
    subst hb
    exact hfresh ha

/-- C1 witness: the amended theorem at a concrete valid input and at the
fresh-id hypotheses. -/
theorem C1_witness :
    AppLogsDO.log Store.empty "id1" "t0" { level := "INFO", message := "boot" } =
      (Result.ok (mkEntry "id1" "t0" { level := "INFO", message := "boot" }),
       { Store.empty with
         logs := [mkEntry "id1" "t0" { level := "INFO", message := "boot" }] }) ∧
    ([mkEntry "id1" "t0" { level := "INFO", message := "boot" }].map
        (fun r => r.id)).Nodup := by
  have h := C1_log_behavior Store.empty "id1" "t0"
    { level := "INFO", message := "boot" }
  exact ⟨h.2.1 (by decide), h.2.2 (by decide) (by decide)⟩

/-! ## Claim C2 -/

/-- The entries a fully successful `logBatch` produces, starting at id
index `i`: one shared timestamp, the i-th fresh id for the i-th input,
input order preserved. -/
def batchEntries (idGen : Nat → String) (ts : String) :
    Nat → List LogInput → List LogEntry
  | _, [] => []
  | i, input :: rest => mkEntry (idGen i) ts input :: batchEntries idGen ts (i + 1) rest

theorem logBatchGo_ok (idGen : Nat → String) (ts : String) :
    ∀ (inputs : List LogInput) (st : Store) (i : Nat),
      (∀ inp ∈ inputs, validLevel inp.level = true) →
      logBatchGo idGen ts st i inputs =
        (Result.ok (batchEntries idGen ts i inputs),
         { st with logs := st.logs ++ batchEntries idGen ts i inputs }) := by
  intro inputs
  induction inputs with
  | nil => intro st i _; simp [logBatchGo, batchEntries]
  | cons inp rest ih =>
      intro st i h
      have hv : validLevel inp.level = true := h inp (by simp)
      have hrest : ∀ x ∈ rest, validLevel x.level = true :=
        fun x hx => h x (by simp [hx])
      simp only [logBatchGo, insertLog, mkEntry, hv, if_pos]
      rw [ih _ (i + 1) hrest]
      simp [batchEntries, mkEntry, List.append_assoc]

theorem logBatchGo_err_code (idGen : Nat → String) (ts : String) :
    ∀ (inputs : List LogInput) (st : Store) (i : Nat) (e : ApiError)
      (st2 : Store),
      logBatchGo idGen ts st i inputs = (Result.err e, st2) →
      e.code = ErrorCode.INTERNAL_ERROR := by
  intro inputs
  induction inputs with
  | nil =>
      intro st i e st2 h
      simp [logBatchGo] at h
  | cons inp rest ih =>
      intro st i e st2 h
      simp only [logBatchGo] at h
      split at h
      · simp only [Prod.mk.injEq, Result.err.injEq] at h
        obtain ⟨he, _⟩ := h
        rw [← he]
      · split at h
        · simp at h
        · rename_i e' st'' heq2
          simp only [Prod.mk.injEq, Result.err.injEq] at h
          obtain ⟨he, _⟩ := h
          subst he
          exact ih _ _ _ _ heq2

theorem batchEntries_length (idGen : Nat → String) (ts : String) :
    ∀ (inputs : List LogInput) (i : Nat),
      (batchEntries idGen ts i inputs).length = inputs.length := by
  intro inputs
  induction inputs with
  | nil => intro i; rfl
  | cons inp rest ih => intro i; simp [batchEntries, ih]

theorem batchEntries_timestamp (idGen : Nat → String) (ts : String) :
    ∀ (inputs : List LogInput) (i : Nat),
      ∀ e ∈ batchEntries idGen ts i inputs, e.timestamp = ts := by
  intro inputs
  induction inputs with
  | nil => intro i e he; simp [batchEntries] at he
  | cons inp rest ih =>
      intro i e he
      rcases List.mem_cons.mp he with rfl | he
      · rfl
      · exact ih (i + 1) e he

theorem batchEntries_ids (idGen : Nat → String) (ts : String) :
    ∀ (inputs : List LogInput) (i : Nat),
      (batchEntries idGen ts i inputs).map (fun e => e.id) =
        (List.range' i inputs.length).map idGen := by
  intro inputs
  induction inputs with
  | nil => intro i; rfl
  | cons inp rest ih =>
      intro i
      simp [batchEntries, List.range'_succ, ih, mkEntry]

theorem batchEntries_payload (idGen : Nat → String) (ts : String) :
    ∀ (inputs : List LogInput) (i : Nat),
      (batchEntries idGen ts i inputs).map (fun e => (e.level, e.message)) =
        inputs.map (fun inp => (inp.level, inp.message)) := by
  intro inputs
  induction inputs with
  | nil => intro i; rfl
  | cons inp rest ih => intro i; simp [batchEntries, mkEntry, ih]

/-- C2 counterexample: a batch whose second insert violates the level
CHECK constraint returns `INTERNAL_ERROR`, yet the first row of the batch
stays committed — the store is not unchanged (each `sql.exec` commits on
its own and the source's `catch` swallows the exception without any
rollback). -/
theorem C2_counterexample :
    (AppLogsDO.logBatch Store.empty (fun i => if i == 0 then "id0" else "id1")
        "t0" [{ level := "INFO", message := "a" },
              { level := "TRACE", message := "b" }]).1 =
      Result.err ⟨ErrorCode.INTERNAL_ERROR, levelCheckMsg⟩ ∧
    (AppLogsDO.logBatch Store.empty (fun i => if i == 0 then "id0" else "id1")
        "t0" [{ level := "INFO", message := "a" },
              { level := "TRACE", message := "b" }]).2.logs.length = 1 ∧
    Store.empty.logs.length = 0 :=
  ⟨by decide, by decide, by decide⟩

/-- C2 (amended): a failing insert makes `logBatch` return an
`InternalError` result, but entries inserted before the failure remain
committed (partial commit is possible); when every insert succeeds, the
returned entries share the single timestamp of the call, carry the
pairwise distinct fresh ids, preserve the input order, and all rows are
appended to the store. -/
theorem C2_logBatch (st : Store) (idGen : Nat → String) (ts : String)
    (inputs : List LogInput) :
    (∀ e st2, AppLogsDO.logBatch st idGen ts inputs = (Result.err e, st2) →
        e.code = ErrorCode.INTERNAL_ERROR) ∧
    ((∀ inp ∈ inputs, validLevel inp.level = true) →
      ((List.range inputs.length).map idGen).Nodup →
      AppLogsDO.logBatch st idGen ts inputs =
        (Result.ok (batchEntries idGen ts 0 inputs),
         { st with logs := st.logs ++ batchEntries idGen ts 0 inputs }) ∧
      (batchEntries idGen ts 0 inputs).length = inputs.length ∧
      (∀ e ∈ batchEntries idGen ts 0 inputs, e.timestamp = ts) ∧
      ((batchEntries idGen ts 0 inputs).map (fun e => e.id)).Nodup ∧
      (batchEntries idGen ts 0 inputs).map (fun e => (e.level, e.message)) =
        inputs.map (fun inp => (inp.level, inp.message))) := by
  constructor
  · intro e st2 h
    exact logBatchGo_err_code idGen ts inputs st 0 e st2 h
  · intro hvalid hnodup
    refine ⟨logBatchGo_ok idGen ts inputs st 0 hvalid, ?_, ?_, ?_, ?_⟩
    · exact batchEntries_length idGen ts inputs 0
    · exact batchEntries_timestamp idGen ts inputs 0
    · rw [batchEntries_ids, ← List.range_eq_range']
      exact hnodup
    · exact batchEntries_payload idGen ts inputs 0

/-- C2 witness: the amended theorem's success clause at a concrete
two-entry batch. -/
theorem C2_witness :
    (AppLogsDO.logBatch Store.empty (fun i => if i == 0 then "id0" else "id1")
        "t0" [{ level := "INFO", message := "a" },
              { level := "WARN", message := "b" }]).1 =
      Result.ok (batchEntries (fun i => if i == 0 then "id0" else "id1") "t0" 0
        [{ level := "INFO", message := "a" },
         { level := "WARN", message := "b" }]) := by
  have h := (C2_logBatch Store.empty (fun i => if i == 0 then "id0" else "id1")
      "t0" [{ level := "INFO", message := "a" },
            { level := "WARN", message := "b" }]).2 (by decide) (by decide)
  rw [h.1]

/-! ## Claim C3 -/

theorem matchesFilters_search_only (s : String) (r : LogEntry) :
    matchesFilters { search := some s } r =
      likeMatch ('%' :: s.data ++ ['%']) r.message.data := by
  simp [matchesFilters]

/-- A store with a single entry whose message is "Hello". -/
def helloStore : Store :=
  { Store.empty with logs := [⟨"1", "t", "INFO", "Hello", none, none⟩] }

/-- C3 counterexample: the query with `search = "hello"` returns the entry
whose message is "Hello" even though "hello" is not a case-sensitive
substring of "Hello" — SQLite `LIKE` compares ASCII letters
case-insensitively, so the claim's "case-sensitive" is wrong. -/
theorem C3_counterexample :
    resultRows (AppLogsDO.query helloStore { search := some "hello" }).1 =
      [⟨"1", "t", "INFO", "Hello", none, none⟩] ∧
    specCaseSensitiveSubstring "hello" "Hello" = false :=
  ⟨by decide, by decide⟩

/-- C3 (amended): with only the `search` filter set, a stored entry is
returned iff the SQLite `LIKE` pattern `%s%` matches its message —
an ASCII-case-insensitive containment test in which `%`/`_` inside `s` act
as wildcards (stated for result sets within the default limit and with
pairwise distinct stored ids). -/
theorem C3_search (st : Store) (s : String) (r : LogEntry)
    (hmem : r ∈ st.logs)
    (hnodup : (st.logs.map (fun e => e.id)).Nodup)
    (hlen : (st.logs.filter (matchesFilters { search := some s })).length ≤ 100) :
    (∃ e ∈ resultRows (AppLogsDO.query st { search := some s }).1, e.id = r.id) ↔
      likeMatch ('%' :: s.data ++ ['%']) r.message.data = true := by
  have hrows : resultRows (AppLogsDO.query st { search := some s }).1 =
      (sortDescBy (fun r => r.timestamp)
        (st.logs.filter (matchesFilters { search := some s }))).take 100 := by
    simp [AppLogsDO.query, resultRows, sqlLimitOffset]
  have hlen' : (sortDescBy (fun r => r.timestamp)
      (st.logs.filter (matchesFilters { search := some s }))).length ≤ 100 := by
    rw [length_sortDescBy]; exact hlen
  rw [hrows, List.take_of_length_le hlen']
  constructor
  · rintro ⟨e, he, hid⟩
    rw [mem_sortDescBy] at he
    rcases List.mem_filter.mp he with ⟨hemem, hematch⟩
    have : e = r := List.inj_on_of_nodup_map hnodup hemem hmem hid
    subst this
    rw [matchesFilters_search_only] at hematch
    exact hematch
  · intro hmatch
    refine ⟨r, ?_, rfl⟩
    rw [mem_sortDescBy]
    exact List.mem_filter.mpr ⟨hmem, by rw [matchesFilters_search_only]; exact hmatch⟩

/-- C3 witness: the amended theorem at a concrete store and search
string. -/
theorem C3_witness :
    ∃ e ∈ resultRows (AppLogsDO.query helloStore { search := some "ELLO" }).1,
      e.id = "1" := by
  have h := C3_search helloStore "ELLO" ⟨"1", "t", "INFO", "Hello", none, none⟩
    (by decide) (by decide) (by decide)
  exact h.mpr (by decide)

/-! ## Claim C4 -/

theorem setHealthUrls_pending (s : SchedState) (urls : List String) :
    (AppLogsDO.setHealthUrls s urls).2.pending =
      if s.pending = 0 ∧ urls ≠ [] then 1 else s.pending := by
  by_cases h : s.pending = 0 ∧ urls ≠ []
  · simp [AppLogsDO.setHealthUrls, h, h.1]
  · simp [AppLogsDO.setHealthUrls, h]

theorem getHealthUrlsOp_pending (s : SchedState) :
    (getHealthUrlsOp s).2.pending = s.pending := by
  unfold getHealthUrlsOp
  by_cases h : s.healthUrls ≠ []
  · simp [h]
  · simp only [h, if_false]
    cases s.store.configHealthUrls <;> rfl

theorem alarm_pending_le (s : SchedState) (probe : Nat → Int × Int)
    (idGen tGen : Nat → String) :
    (AppLogsDO.alarm s probe idGen tGen).pending ≤ s.pending + 1 := by
  unfold AppLogsDO.alarm
  by_cases h : (getHealthUrlsOp s).1 ≠ []
  · simp [h, getHealthUrlsOp_pending]
  · simp only [h, if_false]
    simp [getHealthUrlsOp_pending]

/-- C5: in every reachable scheduler state at most one timer is pending;
`setHealthUrls` arms one exactly when none is armed and the list is
non-empty, and while one is armed it never arms a second (the pending
count is unchanged). -/
theorem C5_at_most_one_timer (s : SchedState) (h : Reach s) :
    s.pending ≤ 1 ∧
    (∀ urls, (AppLogsDO.setHealthUrls s urls).2.pending ≤ 1 ∧
      (s.pending ≠ 0 →
        (AppLogsDO.setHealthUrls s urls).2.pending = s.pending)) := by
  have hmain : ∀ t, Reach t → t.pending ≤ 1 := by
    intro t ht
    induction ht with
    | init => simp [initSched]
    | set s' urls hr ih =>
        rw [setHealthUrls_pending]
        split
        · exact le_refl 1
        · exact ih
    | fire s' probe idGen tGen hr hp ih =>
        have hle := alarm_pending_le
          { s' with pending := s'.pending - 1 } probe idGen tGen
        unfold fireAlarm
        refine le_trans hle ?_
        simp only
        omega
    | storeOp s' f hr ih => simpa using ih
  refine ⟨hmain s h, ?_⟩
  intro urls
  constructor
  · rw [setHealthUrls_pending]
    split
    · exact le_refl 1
    · exact hmain s h
  · intro hne
    rw [setHealthUrls_pending]
    have hc : ¬ (s.pending = 0 ∧ urls ≠ []) := fun hc => hne hc.1
    simp [hc]

/-- C5 witness: the invariant at the concrete reachable state produced by
one `setHealthUrls` call on a fresh object. -/
theorem C5_witness :
    (AppLogsDO.setHealthUrls initSched ["http://a"]).2.pending ≤ 1 := by
  have h := C5_at_most_one_timer _ (Reach.set initSched ["http://a"] Reach.init)
  exact h.1

/-! ## Claim C6 -/

theorem nodup_subset_length {l ks : List String} (hn : l.Nodup)
    (hsub : ∀ x ∈ l, x ∈ ks) : l.length ≤ ks.length := by
  classical
  calc l.length = l.toFinset.card := (List.toFinset_card_of_nodup hn).symm
    _ ≤ ks.toFinset.card := by
        refine Finset.card_le_card ?_
        intro x hx
        exact List.mem_toFinset.mpr (hsub x (List.mem_toFinset.mp hx))
    _ ≤ ks.length := ks.toFinset_card_le

theorem perm_insertDescBy {α : Type} (key : α → String) (x : α)
    (l : List α) : (insertDescBy key x l).Perm (x :: l) := by
  induction l with
  | nil => exact List.Perm.refl _
  | cons y ys ih =>
      by_cases h : strLeB (key y) (key x) = true
      · simp [insertDescBy, h]
      · simp only [insertDescBy, if_neg h]
        exact (ih.cons y).trans (List.Perm.swap x y ys)

theorem perm_sortDescBy {α : Type} (key : α → String) (l : List α) :
    (sortDescBy key l).Perm l := by
  induction l with
  | nil => exact List.Perm.refl _
  | cons x xs ih => exact (perm_insertDescBy key x _).trans (ih.cons x)

/-- C6: after each recorded health check the retained checks for that URL
are exactly the 1000 most recent by check time: at most 1000 remain and
their number equals min(1000, inserted count for the URL); everything
retained was present (or is the new row); every row of the top-1000 by
`checked_at DESC` is retained; and any dropped check of that URL is no
more recent than any retained one. -/
theorem C6_health_retention (st : Store) (id url : String) (status lat : Int)
    (t : String)
    (hnodup : (st.health_checks.map (fun r => r.id)).Nodup)
    (hfresh : id ∉ st.health_checks.map (fun r => r.id)) :
    (((AppLogsDO.recordHealthCheck st id url status lat t).health_checks.filter
        (fun r => r.url = url)).length ≤ 1000) ∧
    (∀ r ∈ (AppLogsDO.recordHealthCheck st id url status lat t).health_checks,
      r ∈ st.health_checks ++ [⟨id, url, status, lat, t⟩]) ∧
    (∀ d ∈ st.health_checks ++ [(⟨id, url, status, lat, t⟩ : HealthCheck)],
      d.url = url →
      d ∉ (AppLogsDO.recordHealthCheck st id url status lat t).health_checks →
      ∀ k ∈ (AppLogsDO.recordHealthCheck st id url status lat t).health_checks,
        k.url = url → strLeB d.checked_at k.checked_at = true) ∧
    (∀ r ∈ (sortDescBy (fun x : HealthCheck => x.checked_at)
        ((st.health_checks ++ [(⟨id, url, status, lat, t⟩ : HealthCheck)]).filter
          (fun x : HealthCheck => x.url = url))).take 1000,
      r ∈ (AppLogsDO.recordHealthCheck st id url status lat t).health_checks) ∧
    (((AppLogsDO.recordHealthCheck st id url status lat t).health_checks.filter
        (fun r => r.url = url)).length =
      min 1000
        ((st.health_checks ++ [(⟨id, url, status, lat, t⟩ : HealthCheck)]).filter
          (fun r => r.url = url)).length) := by
  have hall_nodup :
      ((st.health_checks ++ [(⟨id, url, status, lat, t⟩ : HealthCheck)]).map
        (fun r => r.id)).Nodup := by
    rw [List.map_append]
    refine List.Nodup.append hnodup (List.nodup_singleton _) ?_
    intro a ha hb
    simp only [List.map_cons, List.map_nil, List.mem_singleton] at hb
    subst hb
    exact hfresh ha
  have hres : (AppLogsDO.recordHealthCheck st id url status lat t).health_checks =
      (st.health_checks ++ [(⟨id, url, status, lat, t⟩ : HealthCheck)]).filter
        (fun r => if r.url = url then decide (r.id ∈
          ((sortDescBy (fun x : HealthCheck => x.checked_at)
            ((st.health_checks ++ [(⟨id, url, status, lat, t⟩ : HealthCheck)]).filter
              (fun x : HealthCheck => x.url = url))).take 1000).map
            (fun x : HealthCheck => x.id))
          else true) := rfl
  set all := st.health_checks ++ [(⟨id, url, status, lat, t⟩ : HealthCheck)]
    with hA
  set sorted := sortDescBy (fun x => x.checked_at)
    (all.filter (fun x => x.url = url)) with hS
  set keepIds := (sorted.take 1000).map (fun x => x.id) with hK
  have hkle : keepIds.length ≤ 1000 := by
    rw [hK, List.length_map, List.length_take]
    exact min_le_left _ _
  have hsub1 : List.Sublist
      ((all.filter (fun r => if r.url = url then
        decide (r.id ∈ keepIds) else true)).filter (fun r => r.url = url))
      all :=
    (List.filter_sublist _).trans (List.filter_sublist _)
  have hnod : (((all.filter (fun r => if r.url = url then
      decide (r.id ∈ keepIds) else true)).filter
        (fun r => r.url = url)).map (fun r => r.id)).Nodup :=
    (hsub1.map _).nodup hall_nodup
  have hsubk : ∀ x ∈ ((all.filter (fun r => if r.url = url then
      decide (r.id ∈ keepIds) else true)).filter
        (fun r => r.url = url)).map (fun r => r.id), x ∈ keepIds := by
    intro x hx
    rcases List.mem_map.mp hx with ⟨r, hr, rfl⟩
    rcases List.mem_filter.mp hr with ⟨hrP, hrUrl⟩
    rcases List.mem_filter.mp hrP with ⟨_, hrPred⟩
    rw [if_pos (of_decide_eq_true hrUrl)] at hrPred
    exact of_decide_eq_true hrPred
  have hd : ∀ r ∈ sorted.take 1000,
      r ∈ all.filter (fun r => if r.url = url then
        decide (r.id ∈ keepIds) else true) := by
    intro r hr
    have hrs : r ∈ sorted := List.take_subset _ _ hr
    rw [hS, mem_sortDescBy] at hrs
    rcases List.mem_filter.mp hrs with ⟨hrAll, hrUrl⟩
    refine List.mem_filter.mpr ⟨hrAll, ?_⟩
    rw [if_pos (of_decide_eq_true hrUrl)]
    refine decide_eq_true ?_
    rw [hK]
    exact List.mem_map.mpr ⟨r, hr, rfl⟩
  have hurlnodup : ((all.filter (fun x => x.url = url)).map
      (fun r => r.id)).Nodup :=
    ((List.filter_sublist _).map _).nodup hall_nodup
  have hsortperm : (sorted.map (fun r => r.id)).Perm
      ((all.filter (fun x => x.url = url)).map (fun r => r.id)) := by
    rw [hS]
    exact (perm_sortDescBy _ _).map _
  have hsortnodup : (sorted.map (fun r => r.id)).Nodup :=
    hsortperm.nodup_iff.mpr hurlnodup
  have hkeepnodup : keepIds.Nodup := by
    rw [hK]
    exact ((List.take_sublist _ _).map _).nodup hsortnodup
  have hkeepsub : ∀ x ∈ keepIds,
      x ∈ ((all.filter (fun r => if r.url = url then
        decide (r.id ∈ keepIds) else true)).filter
          (fun r => r.url = url)).map (fun r => r.id) := by
    intro x hx
    rw [hK] at hx
    rcases List.mem_map.mp hx with ⟨r, hr, rfl⟩
    have hrP := hd r hr
    have hrUrl : r.url = url := by
      have hrs : r ∈ sorted := List.take_subset _ _ hr
      rw [hS, mem_sortDescBy] at hrs
      exact of_decide_eq_true (List.mem_filter.mp hrs).2
    exact List.mem_map.mpr
      ⟨r, List.mem_filter.mpr ⟨hrP, decide_eq_true hrUrl⟩, rfl⟩
  refine ⟨?_, ?_, ?_, ?_, ?_⟩
  · rw [hres]
    have hlen := nodup_subset_length hnod hsubk
    rw [List.length_map] at hlen
    exact le_trans hlen hkle
  · intro r hr
    rw [hres] at hr
    exact List.mem_of_mem_filter hr
  · intro d hd hdu hdn k hk hku
    rw [hres] at hdn hk
    rcases List.mem_filter.mp hk with ⟨hkAll, hkPred⟩
    rw [if_pos hku] at hkPred
    have hkIds : k.id ∈ keepIds := of_decide_eq_true hkPred
    rcases List.mem_map.mp hkIds with ⟨k', hk'take, hk'id⟩
    have hk'mem : k' ∈ all := by
      have h1 : k' ∈ sorted := List.take_subset _ _ hk'take
      rw [hS, mem_sortDescBy] at h1
      exact List.mem_of_mem_filter h1
    have hkk' : k' = k :=
      List.inj_on_of_nodup_map hall_nodup hk'mem hkAll hk'id
    have hkTake : k ∈ sorted.take 1000 := hkk' ▸ hk'take
    have hdIds : d.id ∉ keepIds := by
      intro hin
      apply hdn
      refine List.mem_filter.mpr ⟨hd, ?_⟩
      rw [if_pos hdu]
      exact decide_eq_true hin
    have hdSorted : d ∈ sorted := by
      rw [hS, mem_sortDescBy]
      exact List.mem_filter.mpr ⟨hd, decide_eq_true hdu⟩
    have hdSplit : d ∈ sorted.take 1000 ++ sorted.drop 1000 := by
      rw [List.take_append_drop]
      exact hdSorted
    have hdDrop : d ∈ sorted.drop 1000 := by
      rcases List.mem_append.mp hdSplit with h1 | h1
      · exact absurd (List.mem_map.mpr ⟨d, h1, rfl⟩) hdIds
      · exact h1
    have hpw := pairwise_sortDescBy (fun x => x.checked_at)
      (all.filter (fun x => x.url = url))
    rw [← hS] at hpw
    have hpw2 : (sorted.take 1000 ++ sorted.drop 1000).Pairwise
        (fun a b => strLeB (b.checked_at) (a.checked_at) = true) := by
      rw [List.take_append_drop]
      exact hpw
    exact (List.pairwise_append.mp hpw2).2.2 k hkTake d hdDrop
  · intro r hr
    rw [hres]
    exact hd r hr
  · rw [hres]
    have hle1 := nodup_subset_length hnod hsubk
    have hle2 := nodup_subset_length hkeepnodup hkeepsub
    have heq : ((all.filter (fun r => if r.url = url then
        decide (r.id ∈ keepIds) else true)).filter
          (fun r => r.url = url)).length = keepIds.length := by
      rw [← List.length_map ((all.filter (fun r => if r.url = url then
        decide (r.id ∈ keepIds) else true)).filter
          (fun r => r.url = url)) (fun r => r.id)]
      exact le_antisymm hle1 hle2
    rw [heq, hK, List.length_map, List.length_take, hS, length_sortDescBy]

/-- C6 witness: the retention clauses at a concrete first insert — at most
1000 retained and exactly min(1000, 1) = 1 retained. -/
theorem C6_witness :
    ((AppLogsDO.recordHealthCheck Store.empty "h1" "http://a" 200 15
        "t1").health_checks.filter (fun r => r.url = "http://a")).length ≤
      1000 ∧
    ((AppLogsDO.recordHealthCheck Store.empty "h1" "http://a" 200 15
        "t1").health_checks.filter (fun r => r.url = "http://a")).length =
      min 1000 ((Store.empty.health_checks ++
        [(⟨"h1", "http://a", 200, 15, "t1"⟩ : HealthCheck)]).filter
        (fun r => r.url = "http://a")).length := by
  have h := C6_health_retention Store.empty "h1" "http://a" 200 15 "t1"
    (by decide) (by decide)
  exact ⟨h.1, h.2.2.2.2⟩

/-! ## Claim C7 -/

/-- C7: `pruneLogs(w)` deletes exactly the rows with timestamp strictly
earlier than `w` and returns that exact count; a repeated call with an
equal-or-earlier watermark deletes zero further rows and leaves the store
unchanged. -/
theorem C7_prune_exact_and_idempotent (st : Store) (w : String) :
    AppLogsDO.pruneLogs st w =
      (Result.ok ⟨((st.logs.filter (fun r => strLtB r.timestamp w)).length : Int)⟩,
       { st with logs := st.logs.filter (fun r => ! strLtB r.timestamp w) }) ∧
    (∀ w', strLeB w' w = true →
      AppLogsDO.pruneLogs (AppLogsDO.pruneLogs st w).2 w' =
        (Result.ok ⟨0⟩, (AppLogsDO.pruneLogs st w).2)) := by
  constructor
  · rfl
  · intro w' hw'
    have hkept : ∀ r ∈ (AppLogsDO.pruneLogs st w).2.logs,
        strLtB r.timestamp w' = false := by
      intro r hr
      have hrk : r ∈ st.logs.filter (fun x => ! strLtB x.timestamp w) := hr
      rcases List.mem_filter.mp hrk with ⟨_, hpred⟩
      have hnw : strLtB r.timestamp w = false := by
        cases hb : strLtB r.timestamp w
        · rfl
        · rw [hb] at hpred; exact absurd hpred (by simp)
      cases hb : strLtB r.timestamp w'
      · rfl
      · have hc := strLtB_trans_leB hb hw'
        rw [hnw] at hc
        exact absurd hc (by simp)
    have hA : (AppLogsDO.pruneLogs st w).2.logs.filter
        (fun r => strLtB r.timestamp w') = [] := by
      rw [List.filter_eq_nil_iff]
      intro a ha
      rw [hkept a ha]
      simp
    have hB : (AppLogsDO.pruneLogs st w).2.logs.filter
        (fun r => ! strLtB r.timestamp w') = (AppLogsDO.pruneLogs st w).2.logs := by
      rw [List.filter_eq_self]
      intro a ha
      rw [hkept a ha]
      rfl
    have hgoal : AppLogsDO.pruneLogs (AppLogsDO.pruneLogs st w).2 w' =
        (Result.ok (⟨(((AppLogsDO.pruneLogs st w).2.logs.filter
            (fun r => strLtB r.timestamp w')).length : Int)⟩ : PruneResult),
         { (AppLogsDO.pruneLogs st w).2 with
           logs := (AppLogsDO.pruneLogs st w).2.logs.filter
             (fun r => ! strLtB r.timestamp w') }) := rfl
    rw [hgoal, hA, hB]
    rfl

/-- C7 witness: idempotence at a concrete store and watermark. -/
theorem C7_witness :
    AppLogsDO.pruneLogs
        (AppLogsDO.pruneLogs
          { Store.empty with
            logs := [⟨"1", "2024-01-01", "INFO", "old", none, none⟩,
                     ⟨"2", "2024-06-01", "INFO", "new", none, none⟩] }
          "2024-03-01").2 "2024-03-01" =
      (Result.ok ⟨0⟩,
       (AppLogsDO.pruneLogs
          { Store.empty with
            logs := [⟨"1", "2024-01-01", "INFO", "old", none, none⟩,
                     ⟨"2", "2024-06-01", "INFO", "new", none, none⟩] }
          "2024-03-01").2) := by
  have h := (C7_prune_exact_and_idempotent
      { Store.empty with
        logs := [⟨"1", "2024-01-01", "INFO", "old", none, none⟩,
                 ⟨"2", "2024-06-01", "INFO", "new", none, none⟩] }
      "2024-03-01").2 "2024-03-01" (by decide)
  exact h

/-! ## Claim C8 -/

theorem bumpColumn_date (col : String) (c : Int) (r : DailyStats) :
    (bumpColumn col c r).date = r.date := by
  unfold bumpColumn
  split_ifs <;> rfl

theorem getStats_date (st : Store) (d : String) :
    (AppLogsDO.getStats st d).1.date = d := by
  unfold AppLogsDO.getStats
  cases hf : st.daily_stats.find? (fun r => r.date = d) with
  | none => rfl
  | some r =>
      have := List.find?_some hf
      simpa using this

theorem find?_append_of_none {α : Type} (p : α → Bool) (l l' : List α)
    (h : l.find? p = none) : (l ++ l').find? p = l'.find? p := by
  rw [List.find?_append, h]
  rfl

theorem getStats_of_find? (st : Store) (d : String) (r : DailyStats)
    (h : st.daily_stats.find? (fun x => x.date = d) = some r) :
    AppLogsDO.getStats st d = (r, st) := by
  unfold AppLogsDO.getStats
  rw [h]

theorem getStats_fst_eq_of_find?_eq (st st' : Store) (d : String)
    (h : st.daily_stats.find? (fun x => x.date = d) =
         st'.daily_stats.find? (fun x => x.date = d)) :
    (AppLogsDO.getStats st d).1 = (AppLogsDO.getStats st' d).1 := by
  unfold AppLogsDO.getStats
  rw [h]
  cases st'.daily_stats.find? (fun x => x.date = d) <;> rfl

theorem find?_map_onDate_hit (g : DailyStats → DailyStats)
    (hg : ∀ r, (g r).date = r.date) (d : String) (l : List DailyStats) :
    (l.map (fun r => if r.date = d then g r else r)).find?
        (fun r => r.date = d) =
      (l.find? (fun r => r.date = d)).map g := by
  induction l with
  | nil => rfl
  | cons x xs ih =>
      simp only [List.map_cons]
      by_cases hx : x.date = d
      · simp [hx, hg, ih]
      · simp [hx, hg, ih]

theorem find?_map_onDate_other (g : DailyStats → DailyStats)
    (hg : ∀ r, (g r).date = r.date) (d d' : String) (hne : d' ≠ d)
    (l : List DailyStats) :
    (l.map (fun r => if r.date = d then g r else r)).find?
        (fun r => r.date = d') =
      l.find? (fun r => r.date = d') := by
  induction l with
  | nil => rfl
  | cons x xs ih =>
      simp only [List.map_cons]
      by_cases hx : x.date = d
      · have hxne : ¬ (x.date = d') := fun hc => hne (hc.symm.trans hx)
        rw [if_pos hx, List.find?_cons_of_neg, List.find?_cons_of_neg, ih]
        · simp [hg, hxne]
        · simp [hg, hxne]
      · by_cases hx' : x.date = d'
        · rw [if_neg hx, List.find?_cons_of_pos, List.find?_cons_of_pos]
          · simpa using hx'
          · simpa using hx'
        · rw [if_neg hx, List.find?_cons_of_neg, List.find?_cons_of_neg, ih]
          · simpa using hx'
          · simpa using hx'

theorem find?_ensureStatsRow (st : Store) (d : String) :
    (ensureStatsRow st d).daily_stats.find? (fun r => r.date = d) =
      some ((AppLogsDO.getStats st d).1) := by
  unfold ensureStatsRow AppLogsDO.getStats
  by_cases h : st.daily_stats.any (fun r => r.date = d) = true
  · rw [if_pos h]
    cases hf : st.daily_stats.find? (fun r => r.date = d) with
    | none =>
        rcases List.any_eq_true.mp h with ⟨x, hx, hpx⟩
        exact absurd hpx (List.find?_eq_none.mp hf x hx)
    | some r => simp [hf]
  · rw [if_neg h]
    have hnone : st.daily_stats.find? (fun r => r.date = d) = none := by
      rw [List.find?_eq_none]
      intro x hx hpx
      exact h (List.any_eq_true.mpr ⟨x, hx, hpx⟩)
    simp only
    rw [find?_append_of_none _ _ _ hnone, hnone]
    simp [zeroStats]

theorem find?_ensureStatsRow_other (st : Store) (d d' : String)
    (hne : d' ≠ d) :
    (ensureStatsRow st d).daily_stats.find? (fun r => r.date = d') =
      st.daily_stats.find? (fun r => r.date = d') := by
  unfold ensureStatsRow
  by_cases h : st.daily_stats.any (fun r => r.date = d) = true
  · rw [if_pos h]
  · rw [if_neg h]
    simp only
    rw [List.find?_append]
    cases hf : st.daily_stats.find? (fun r => r.date = d') with
    | none => simp [zeroStats, hne.symm]
    | some r => rfl

theorem recordStats_valid_col (st : Store) (d lv : String) (c : Int)
    (hcol : (asciiLowerStr lv = "debug" || asciiLowerStr lv = "info" ||
      asciiLowerStr lv = "warn" || asciiLowerStr lv = "error") = true) :
    AppLogsDO.recordStats st d lv c =
      Except.ok (bumpColumn (asciiLowerStr lv) c ((AppLogsDO.getStats st d).1),
        { ensureStatsRow st d with
          daily_stats := (ensureStatsRow st d).daily_stats.map
            (fun r => if r.date = d then bumpColumn (asciiLowerStr lv) c r
              else r) }) := by
  have hfind := find?_map_onDate_hit (bumpColumn (asciiLowerStr lv) c)
    (fun r => bumpColumn_date _ _ _) d (ensureStatsRow st d).daily_stats
  rw [find?_ensureStatsRow, Option.map_some'] at hfind
  unfold AppLogsDO.recordStats
  rw [if_pos hcol]
  simp only
  rw [hfind]

/-- C8: for every valid level, `recordStats` creates a zero row for the
day if none exists, adds exactly `count` to the counter column matching
the level while leaving the day's other three counters unchanged, returns
the full day's counters (which a subsequent read observes), and leaves
every other day's counters untouched. -/
theorem C8_recordStats (st : Store) (d lv : String) (c : Int)
    (hvalid : validLevel lv = true) :
    ∃ snap st2, AppLogsDO.recordStats st d lv c = Except.ok (snap, st2) ∧
      snap.date = d ∧
      snap.debug = (AppLogsDO.getStats st d).1.debug +
        (if lv = "DEBUG" then c else 0) ∧
      snap.info = (AppLogsDO.getStats st d).1.info +
        (if lv = "INFO" then c else 0) ∧
      snap.warn = (AppLogsDO.getStats st d).1.warn +
        (if lv = "WARN" then c else 0) ∧
      snap.error = (AppLogsDO.getStats st d).1.error +
        (if lv = "ERROR" then c else 0) ∧
      (AppLogsDO.getStats st2 d).1 = snap ∧
      (∀ d', d' ≠ d →
        (AppLogsDO.getStats st2 d').1 = (AppLogsDO.getStats st d').1) := by
  have hv : lv = "DEBUG" ∨ lv = "INFO" ∨ lv = "WARN" ∨ lv = "ERROR" := by
    have h0 : ((lv = "DEBUG" ∨ lv = "INFO") ∨ lv = "WARN") ∨ lv = "ERROR" := by
      simpa [validLevel] using hvalid
    tauto
  have hcol : (asciiLowerStr lv = "debug" || asciiLowerStr lv = "info" ||
      asciiLowerStr lv = "warn" || asciiLowerStr lv = "error") = true := by
    rcases hv with rfl | rfl | rfl | rfl <;> decide
  have hc := recordStats_valid_col st d lv c hcol
  refine ⟨_, _, hc, ?_, ?_, ?_, ?_, ?_, ?_, ?_⟩
  · rw [bumpColumn_date]
    exact getStats_date st d
  · rcases hv with rfl | rfl | rfl | rfl <;>
      simp [bumpColumn, show asciiLowerStr "DEBUG" = "debug" from rfl,
        show asciiLowerStr "INFO" = "info" from rfl,
        show asciiLowerStr "WARN" = "warn" from rfl,
        show asciiLowerStr "ERROR" = "error" from rfl]
  · rcases hv with rfl | rfl | rfl | rfl <;>
      simp [bumpColumn, show asciiLowerStr "DEBUG" = "debug" from rfl,
        show asciiLowerStr "INFO" = "info" from rfl,
        show asciiLowerStr "WARN" = "warn" from rfl,
        show asciiLowerStr "ERROR" = "error" from rfl]
  · rcases hv with rfl | rfl | rfl | rfl <;>
      simp [bumpColumn, show asciiLowerStr "DEBUG" = "debug" from rfl,
        show asciiLowerStr "INFO" = "info" from rfl,
        show asciiLowerStr "WARN" = "warn" from rfl,
        show asciiLowerStr "ERROR" = "error" from rfl]
  · rcases hv with rfl | rfl | rfl | rfl <;>
      simp [bumpColumn, show asciiLowerStr "DEBUG" = "debug" from rfl,
        show asciiLowerStr "INFO" = "info" from rfl,
        show asciiLowerStr "WARN" = "warn" from rfl,
        show asciiLowerStr "ERROR" = "error" from rfl]
  · have hfind := find?_map_onDate_hit (bumpColumn (asciiLowerStr lv) c)
      (fun r => bumpColumn_date _ _ _) d (ensureStatsRow st d).daily_stats
    rw [find?_ensureStatsRow, Option.map_some'] at hfind
    rw [getStats_of_find? _ _ _ hfind]
  · intro d' hne
    refine getStats_fst_eq_of_find?_eq _ _ _ ?_
    rw [show ({ ensureStatsRow st d with
        daily_stats := (ensureStatsRow st d).daily_stats.map
          (fun r => if r.date = d then bumpColumn (asciiLowerStr lv) c r
            else r) } : Store).daily_stats =
      (ensureStatsRow st d).daily_stats.map
          (fun r => if r.date = d then bumpColumn (asciiLowerStr lv) c r
            else r) from rfl]
    rw [find?_map_onDate_other _ (fun r => bumpColumn_date _ _ _) _ _ hne,
      find?_ensureStatsRow_other st d d' hne]

/-- Store already holding one INFO count for the day, as produced by a
first `recordStats("INFO")` call. -/
def statsDay1 : Store :=
  { Store.empty with daily_stats := [⟨"2024-01-01", 0, 1, 0, 0⟩] }

/-- C8 witness: a second `recordStats("INFO")` on the same day yields
`info = 2`. -/
theorem C8_witness :
    ∃ snap st2, AppLogsDO.recordStats statsDay1 "2024-01-01" "INFO" 1 =
      Except.ok (snap, st2) ∧ snap.info = 2 := by
  obtain ⟨snap, st2, heq, _, _, hinfo, _, _, _, _⟩ :=
    C8_recordStats statsDay1 "2024-01-01" "INFO" 1 (by decide)
  refine ⟨snap, st2, heq, ?_⟩
  rw [hinfo]
  decide

/-! ## Claim C9 -/

/-- A store holding 101 log rows (one more than the default limit). -/
def bigStore : Store :=
  { Store.empty with
    logs := (List.range 101).map
      (fun i => ⟨toString i, "t", "INFO", "m", none, none⟩) }

/-- C9 counterexample: a non-numeric `limit` parameter parses to `NaN`,
which `?? 100` passes through (nullish coalescing only catches
null/undefined); the `LIMIT` binding then raises a `datatype mismatch`
store exception and the query returns an `INTERNAL_ERROR` result — not
the result of the claimed fallback limit of 100, which on the same
101-row store returns 100 rows. -/
theorem C9_counterexample :
    numParamToFilter (some "abc") = some JsNum.nan ∧
    (AppLogsDO.query bigStore { limit := some JsNum.nan }).1 =
      Result.err ⟨ErrorCode.INTERNAL_ERROR, "datatype mismatch"⟩ ∧
    (resultRows (AppLogsDO.query bigStore
        { limit := some (JsNum.int 100) }).1).length = 100 :=
  ⟨by decide, rfl, by decide⟩

/-- C9 (amended): an omitted `limit`/`offset` defaults to 100/0, and an
empty filter set returns the most recent 100 entries newest-first; but a
non-numeric `limit` or `offset` does not fall back to the default — the
`NaN` from `parseInt` survives `?? 100`/`?? 0`, the `LIMIT`/`OFFSET`
binding raises a `datatype mismatch` store exception, and the operation's
catch converts it to an `INTERNAL_ERROR` result. -/
theorem C9_query_defaults (st : Store) :
    (resultRows (AppLogsDO.query st {}).1 =
      (sortDescBy (fun r => r.timestamp) st.logs).take 100) ∧
    ((resultRows (AppLogsDO.query st {}).1).Pairwise
      (fun a b => strLeB b.timestamp a.timestamp = true)) ∧
    (numParamToFilter (some "abc") = some JsNum.nan ∧
     (AppLogsDO.query st { limit := some JsNum.nan }).1 =
       Result.err ⟨ErrorCode.INTERNAL_ERROR, "datatype mismatch"⟩) ∧
    ((AppLogsDO.query st { offset := some JsNum.nan }).1 =
      Result.err ⟨ErrorCode.INTERNAL_ERROR, "datatype mismatch"⟩) := by
  have hall : st.logs.filter (matchesFilters {}) = st.logs :=
    List.filter_eq_self.mpr (fun a _ => rfl)
  have h1 : resultRows (AppLogsDO.query st {}).1 =
      (sortDescBy (fun r => r.timestamp) st.logs).take 100 := by
    simp [AppLogsDO.query, resultRows, sqlLimitOffset, hall]
  refine ⟨h1, ?_, ⟨by decide, rfl⟩, rfl⟩
  rw [h1]
  exact List.Pairwise.sublist (List.take_sublist _ _)
    (pairwise_sortDescBy (fun r : LogEntry => r.timestamp) st.logs)

/-! ## Claim C10 -/

/-- C10: `getStats` and `getStatsRange` are read-only — they return the
store exactly as it was — and a date with no row yields the synthetic
zero snapshot without creating a `daily_stats` row; `getStatsRange`
resolves each of the `days` dates independently through `getStats`. -/
theorem C10_stats_readonly (st : Store) (d : String) (dayKey : Nat → String)
    (n : Nat) :
    (AppLogsDO.getStats st d).2 = st ∧
    ((∀ r ∈ st.daily_stats, r.date ≠ d) →
      AppLogsDO.getStats st d = (zeroStats d, st)) ∧
    (AppLogsDO.getStatsRange st dayKey n).2 = st ∧
    (AppLogsDO.getStatsRange st dayKey n).1.length = n ∧
    (AppLogsDO.getStatsRange st dayKey n).1 =
      (List.range n).map (fun i => (AppLogsDO.getStats st (dayKey i)).1) := by
  refine ⟨?_, ?_, rfl, ?_, rfl⟩
  · unfold AppLogsDO.getStats
    cases st.daily_stats.find? (fun r => r.date = d) <;> rfl
  · intro hnone
    have hf : st.daily_stats.find? (fun r => r.date = d) = none := by
      rw [List.find?_eq_none]
      intro x hx hpx
      exact hnone x hx (of_decide_eq_true hpx)
    unfold AppLogsDO.getStats
    rw [hf]
  · simp [AppLogsDO.getStatsRange]

/-- C10 witness: the zero-snapshot clause at a concrete empty store. -/
theorem C10_witness :
    AppLogsDO.getStats Store.empty "2024-03-03" =
      (zeroStats "2024-03-03", Store.empty) := by
  have h := (C10_stats_readonly Store.empty "2024-03-03" (fun _ => "x") 0).2.1
    (by decide)
  exact h
